import Mathlib

/-!
# Verification of the status-monitor change-detection core

Shallow embedding of `src/status_monitor.py` (`OpenAIStatusMonitor`).

Modelling conventions:
* Python strings are Lean `String`s; character-level operations
  (`str[:n]`, `str.replace`, `str.title`) are modelled on `String.data`
  (Python slicing and replacement are character based).
* Python `dict.get(k)`/`dict.get(k, d)` on JSON payloads is modelled by
  `Option` fields with `Option.getD`.
* The mutable monitor object is a `MonitorState` record threaded
  explicitly; `datetime.now()` is an input parameter `now`.
* Network fetches are inputs to `check_for_updates`: a value of type
  `Option _` models the result of the corresponding `fetch_*` call
  (`none` = failure).  Python truthiness of `if not summary:` /
  `if incidents:` / `if components:` is modelled exactly: both `none`
  and an empty list/object are falsy.
* `_hash_content` computes `sha256(json.dumps(data, sort_keys=True))`.
  `json.dumps(·, sort_keys=True)` serialises with all object keys sorted,
  recursively; composing with sha256 is a function of that canonical
  form (and injective on it, up to the hash-collision risk the design
  explicitly accepts).  We model the fingerprint as the canonical form
  itself: `canonJson`, which recursively sorts object keys.
-/

/-- JSON values, as parsed from the status API. -/
inductive Json where
  | null : Json
  | bool (b : Bool) : Json
  | num (n : Int) : Json
  | str (s : String) : Json
  | arr (xs : List Json) : Json
  | obj (fields : List (String × Json)) : Json

/-- Python `s[:n]` (character-based slice). -/
def pyTake (n : Nat) (s : String) : String := ⟨s.data.take n⟩

/-- Character count of a Python string (`len(s)`). -/
def pyLen (s : String) : Nat := s.data.length

/-- Python `s.replace(a, b)` for one-character `a` and `b`
(the source only replaces `"_"` by `" "`). -/
def pyReplaceChar (s : String) (a b : Char) : String :=
  ⟨s.data.map (fun c => if c = a then b else c)⟩

/-- One step of Python `str.title()`: the boolean carries whether the
previous character was alphabetic. -/
def pyTitleAux : List Char → Bool → List Char
  | [], _ => []
  | c :: rest, prevAlpha =>
    if c.isAlpha then
      (if prevAlpha then c.toLower else c.toUpper) :: pyTitleAux rest true
    else
      c :: pyTitleAux rest false

/-- Python `s.title()` (ASCII letters, as in the statuses the monitor
formats). -/
def pyTitle (s : String) : String := ⟨pyTitleAux s.data false⟩

/-- `dataclass StatusUpdate`: one notification record. -/
structure StatusUpdate where
  timestamp : String
  product : String
  status : String
  message : String
  incident_id : Option String := none
deriving DecidableEq

/-- A `component` entry of `components.json`; `component.get(k)` may be
absent, hence `Option`. -/
structure ComponentJson where
  id : Option String
  name : Option String
  status : Option String
deriving DecidableEq

/-- An entry of an incident's `incident_updates` list. -/
structure IncidentUpdateJson where
  body : Option String
deriving DecidableEq

/-- An entry of an incident's `components` list (only `name` is read). -/
structure IncidentComponentJson where
  name : Option String
deriving DecidableEq

/-- An `incident` entry of `incidents.json`. -/
structure IncidentJson where
  id : Option String
  name : Option String
  status : Option String
  impact : Option String
  incident_updates : List IncidentUpdateJson
  components : List IncidentComponentJson
deriving DecidableEq

/-- Python `dict` lookup (`d.get(k)`), keys being the (possibly absent)
component ids. -/
def dictGet (d : List (Option String × String)) (k : Option String) :
    Option String :=
  match d with
  | [] => none
  | p :: rest => if p.1 = k then some p.2 else dictGet rest k

/-- Python `d[k] = v`: replace the value at an existing key in place,
otherwise append the new binding. -/
def dictSet (d : List (Option String × String)) (k : Option String)
    (v : String) : List (Option String × String) :=
  match d with
  | [] => [(k, v)]
  | p :: rest => if p.1 = k then (k, v) :: rest else p :: dictSet rest k v

/-- Python `d.pop(k, None)`: drop the binding at `k` if present. -/
def dictPop (d : List (Option String × String)) (k : Option String) :
    List (Option String × String) :=
  match d with
  | [] => []
  | p :: rest => if p.1 = k then rest else p :: dictPop rest k

/-- The keys of the tracked component-state mapping are pairwise
distinct (always true of a Python `dict`). -/
def keysNodup (d : List (Option String × String)) : Prop :=
  (d.map Prod.fst).Nodup

instance (d : List (Option String × String)) : Decidable (keysNodup d) := by
  unfold keysNodup; infer_instance

/-- Mutable state of `OpenAIStatusMonitor` (`__init__`).
`seen_incidents` is the Python `set` (a duplicate-free list used only
through membership and insertion); `seen_component_states` is the
Python `dict`; `last_content_hash` stores the summary fingerprint. -/
structure MonitorState where
  seen_incidents : List (Option String)
  seen_component_states : List (Option String × String)
  last_content_hash : Option String
  active_incidents : Bool
deriving DecidableEq

/-- The state built by `__init__`. -/
def initialState : MonitorState :=
  { seen_incidents := []
    seen_component_states := []
    last_content_hash := none
    active_incidents := false }

def NORMAL_INTERVAL : Nat := 60

def INCIDENT_INTERVAL : Nat := 15

/-- The interval selection of `run` (line 213):
`INCIDENT_INTERVAL if self.active_incidents else NORMAL_INTERVAL`. -/
def next_interval (st : MonitorState) : Nat :=
  if st.active_incidents then INCIDENT_INTERVAL else NORMAL_INTERVAL

/-- Sort a list of JSON object fields by key, as
`json.dumps(·, sort_keys=True)` does.  Keys of a Python dict are
distinct, so any comparison sort produces the same result. -/
def sortPairs (l : List (String × Json)) : List (String × Json) :=
  List.insertionSort (fun a b => a.1 ≤ b.1) l

mutual
/-- Canonical form of a JSON value: every object's fields sorted by
key, recursively — the content `json.dumps(·, sort_keys=True)`
serialises.  `_hash_content` is modelled as this canonical form (see
the header comment). -/
def canonJson : Json → Json
  | .null => .null
  | .bool b => .bool b
  | .num n => .num n
  | .str s => .str s
  | .arr xs => .arr (canonList xs)
  | .obj fs => .obj (sortPairs (canonFields fs))
termination_by j => sizeOf j

def canonList : List Json → List Json
  | [] => []
  | j :: js => canonJson j :: canonList js
termination_by l => sizeOf l

def canonFields : List (String × Json) → List (String × Json)
  | [] => []
  | (k, v) :: fs => (k, canonJson v) :: canonFields fs
termination_by l => sizeOf l
end

mutual
/-- A deterministic rendering of a JSON value, standing in for
`json.dumps`: applied after `canonJson` it plays the role of
`json.dumps(·, sort_keys=True)` (the exact punctuation of the
rendering is irrelevant to every property proved below). -/
def serializeJson : Json → String
  | .null => "null"
  | .bool b => if b then "true" else "false"
  | .num n => toString n
  | .str s => "\"" ++ s ++ "\""
  | .arr xs => "[" ++ serializeList xs ++ "]"
  | .obj fs => "\x7b" ++ serializeFields fs ++ "\x7d"
termination_by j => sizeOf j

def serializeList : List Json → String
  | [] => ""
  | j :: js => serializeJson j ++ "," ++ serializeList js
termination_by l => sizeOf l

def serializeFields : List (String × Json) → String
  | [] => ""
  | (k, v) :: fs => "\"" ++ k ++ "\":" ++ serializeJson v ++ "," ++ serializeFields fs
termination_by l => sizeOf l
end

/-- `_hash_content` (lines 36-39): fingerprint of a summary document
(a JSON object given as its field list) — the serialisation of its
canonical (key-sorted) form; sha256 of it is a function of this
value, so two documents get equal hashes exactly when they get equal
fingerprints here (up to the accepted hash-collision risk). -/
def hash_content (d : List (String × Json)) : String :=
  serializeJson (canonJson (Json.obj d))

/-- The decision of lines 152-155: inspect further iff the summary's
fingerprint differs from the stored one (true as well when no
fingerprint is stored yet). -/
def should_inspect (last : Option String) (d : List (String × Json)) : Bool :=
  !(some (hash_content d) == last)

/-- Build the notification record for a newly seen incident
(lines 110-137). -/
def mkIncidentUpdate (now : String) (inc : IncidentJson) : StatusUpdate :=
  let status := inc.status.getD "investigating"
  let impact := inc.impact.getD "none"
  let latest_message :=
    match inc.incident_updates with
    | [] => "No details available"
    | u :: _ => u.body.getD "No details available"
  let component_names := inc.components.map (fun c => c.name.getD "Unknown")
  let product :=
    match component_names with
    | [] => "OpenAI API - Multiple Services"
    | _ => "OpenAI API - " ++ String.intercalate ", " component_names
  { timestamp := now
    product := product
    status := pyTitle impact ++ " - " ++ pyTitle (pyReplaceChar status '_' ' ')
    message := pyTake 200 latest_message
    incident_id := inc.id }

/-- The loop body of `process_incidents` (lines 101-138), recursing on
the incident list and threading the `seen_incidents` set. -/
def piAux (now : String) (seen : List (Option String)) :
    List IncidentJson → List (Option String) × List StatusUpdate
  | [] => (seen, [])
  | inc :: rest =>
    if inc.id ∈ seen then piAux now seen rest
    else
      let r := piAux now (inc.id :: seen) rest
      (r.1, mkIncidentUpdate now inc :: r.2)

/-- `process_incidents` (lines 97-140). -/
def process_incidents (st : MonitorState) (now : String)
    (incidents : List IncidentJson) : MonitorState × List StatusUpdate :=
  let r := piAux now st.seen_incidents incidents
  ({ st with seen_incidents := r.1 }, r.2)

/-- Build the notification record for a component status change
(lines 87-92). -/
def mkComponentUpdate (now : String) (name status : String) : StatusUpdate :=
  { timestamp := now
    product := "OpenAI API - " ++ name
    status := pyTitle (pyReplaceChar status '_' ' ')
    message := "Service status changed to: " ++ pyReplaceChar status '_' ' ' }

/-- The loop body of `process_components` (lines 70-93), recursing on
the component list and threading the `seen_component_states` dict. -/
def pcAux (now : String) (states : List (Option String × String)) :
    List ComponentJson → List (Option String × String) × List StatusUpdate
  | [] => (states, [])
  | c :: rest =>
    let status := c.status.getD "unknown"
    if status = "operational" then
      pcAux now (dictPop states c.id) rest
    else if dictGet states c.id = some status then
      pcAux now states rest
    else
      let r := pcAux now (dictSet states c.id status) rest
      (r.1, mkComponentUpdate now (c.name.getD "Unknown Service") status :: r.2)

/-- `process_components` (lines 66-95). -/
def process_components (st : MonitorState) (now : String)
    (components : List ComponentJson) : MonitorState × List StatusUpdate :=
  let r := pcAux now st.seen_component_states components
  ({ st with seen_component_states := r.1 }, r.2)

/-- The unresolved-incident filter of line 165:
`i.get("status") not in ["resolved", "postmortem"]`
(note: no default for `get`, so a missing status counts as active). -/
def activeFilter (incs : List IncidentJson) : List IncidentJson :=
  incs.filter
    (fun i => !(i.status == some "resolved" || i.status == some "postmortem"))

/-- Lines 162-169 of `check_for_updates`: the incidents sub-step.  The
argument is the result of `fetch_incidents`; Python's `if incidents:`
skips the block when it is `None` or the empty list. -/
def incidentsStep (st : MonitorState) (now : String) :
    Option (List IncidentJson) → MonitorState × List StatusUpdate
  | some (i :: is) =>
    process_incidents
      { st with active_incidents := decide (0 < (activeFilter (i :: is)).length) }
      now (i :: is)
  | _ => (st, [])

/-- Lines 172-175 of `check_for_updates`: the components sub-step,
with the same truthiness behaviour. -/
def componentsStep (st : MonitorState) (now : String) :
    Option (List ComponentJson) → MonitorState × List StatusUpdate
  | some (c :: cs) => process_components st now (c :: cs)
  | _ => (st, [])

/-- `check_for_updates` (lines 142-177).  `summary`, `incidents` and
`components` are the results of the three fetches; `if not summary:`
returns early when the summary fetch failed (`none`) or returned an
empty document (`some []`). -/
def check_for_updates (st : MonitorState) (now : String)
    (summary : Option (List (String × Json)))
    (incidents : Option (List IncidentJson))
    (components : Option (List ComponentJson)) :
    MonitorState × List StatusUpdate :=
  match summary with
  | none => (st, [])
  | some [] => (st, [])
  | some (p :: ps) =>
    let current_hash := hash_content (p :: ps)
    if some current_hash = st.last_content_hash then (st, [])
    else
      let st1 := { st with last_content_hash := some current_hash }
      let ri := incidentsStep st1 now incidents
      let rc := componentsStep ri.1 now components
      (rc.1, ri.2 ++ rc.2)

/-- Several cycles of incident processing (the claims about the
fire-once policy quantify over sequences of payloads). -/
def runIncidentBatches (st : MonitorState) (now : String) :
    List (List IncidentJson) → MonitorState × List StatusUpdate
  | [] => (st, [])
  | b :: bs =>
    let r := process_incidents st now b
    let r2 := runIncidentBatches r.1 now bs
    (r2.1, r.2 ++ r2.2)

/-- Status of the last entry of `comps` whose id is `k`, if any — the
"most recently processed status" of component `k` within one payload. -/
def lastStatusFor (comps : List ComponentJson) (k : Option String) :
    Option String :=
  match comps with
  | [] => none
  | c :: rest =>
    match lastStatusFor rest k with
    | some s => some s
    | none => if c.id = k then some (c.status.getD "unknown") else none

/-- Several incident-processing cycles at the level of the seen-set
(list form of `runIncidentBatches`, convenient for induction). -/
def runBatchesAux (now : String) (seen : List (Option String)) :
    List (List IncidentJson) → List (Option String) × List StatusUpdate
  | [] => (seen, [])
  | b :: bs =>
    let r := piAux now seen b
    let r2 := runBatchesAux now r.1 bs
    (r2.1, r.2 ++ r2.2)

/-! ## Dictionary lemmas -/

theorem dictPop_sublist (d : List (Option String × String)) (k : Option String) :
    List.Sublist (dictPop d k) d := by
  induction d with
  | nil => simp [dictPop]
  | cons p rest ih =>
    simp only [dictPop]
    by_cases h : p.1 = k
    · rw [if_pos h]
      exact List.sublist_cons_self p rest
    · rw [if_neg h]
      exact ih.cons₂ p

theorem mem_dictSet {q : Option String × String}
    {d : List (Option String × String)} {k : Option String} {v : String}
    (h : q ∈ dictSet d k v) : q ∈ d ∨ q = (k, v) := by
  induction d with
  | nil =>
    right
    simpa [dictSet] using h
  | cons p rest ih =>
    simp only [dictSet] at h
    by_cases hp : p.1 = k
    · rw [if_pos hp] at h
      rcases List.mem_cons.mp h with h' | h'
      · exact Or.inr h'
      · exact Or.inl (List.mem_cons_of_mem p h')
    · rw [if_neg hp] at h
      rcases List.mem_cons.mp h with h' | h'
      · exact Or.inl (h' ▸ List.mem_cons_self p rest)
      · rcases ih h' with h'' | h''
        · exact Or.inl (List.mem_cons_of_mem p h'')
        · exact Or.inr h''

theorem dictGet_mem_value {d : List (Option String × String)}
    {k : Option String} {v : String} (h : dictGet d k = some v) :
    ∃ p ∈ d, p.2 = v := by
  induction d with
  | nil => simp [dictGet] at h
  | cons p rest ih =>
    simp only [dictGet] at h
    by_cases hp : p.1 = k
    · rw [if_pos hp] at h
      exact ⟨p, List.mem_cons_self p rest, by injection h⟩
    · rw [if_neg hp] at h
      rcases ih h with ⟨q, hq, hqv⟩
      exact ⟨q, List.mem_cons_of_mem p hq, hqv⟩

theorem dictGet_dictSet_self (d : List (Option String × String))
    (k : Option String) (v : String) : dictGet (dictSet d k v) k = some v := by
  induction d with
  | nil => simp [dictSet, dictGet]
  | cons p rest ih =>
    simp only [dictSet]
    by_cases h : p.1 = k
    · rw [if_pos h]
      simp [dictGet]
    · rw [if_neg h]
      simp [dictGet, h, ih]

theorem dictGet_dictSet_ne {d : List (Option String × String)}
    {k k' : Option String} (v : String) (h : k' ≠ k) :
    dictGet (dictSet d k v) k' = dictGet d k' := by
  induction d with
  | nil => simp [dictSet, dictGet, Ne.symm h]
  | cons p rest ih =>
    simp only [dictSet]
    by_cases hp : p.1 = k
    · rw [if_pos hp]
      simp [dictGet, Ne.symm h, hp]
    · rw [if_neg hp]
      simp [dictGet, ih]

theorem dictGet_dictPop_ne {d : List (Option String × String)}
    {k k' : Option String} (h : k' ≠ k) :
    dictGet (dictPop d k) k' = dictGet d k' := by
  induction d with
  | nil => simp [dictPop]
  | cons p rest ih =>
    simp only [dictPop]
    by_cases hp : p.1 = k
    · rw [if_pos hp]
      simp [dictGet, hp, Ne.symm h]
    · rw [if_neg hp]
      simp [dictGet, ih]

theorem dictGet_eq_none_of_not_mem {d : List (Option String × String)}
    {k : Option String} (h : k ∉ d.map Prod.fst) : dictGet d k = none := by
  induction d with
  | nil => rfl
  | cons p rest ih =>
    have h1 : p.1 ≠ k := fun hh =>
      h (List.mem_map.mpr ⟨p, List.mem_cons_self p rest, hh⟩)
    have h2 : k ∉ rest.map Prod.fst := by
      intro hh
      rcases List.mem_map.mp hh with ⟨q, hq, hqk⟩
      exact h (List.mem_map.mpr ⟨q, List.mem_cons_of_mem p hq, hqk⟩)
    simp [dictGet, h1, ih h2]

theorem keys_cons_nodup {p : Option String × String}
    {rest : List (Option String × String)} (hnd : keysNodup (p :: rest)) :
    p.1 ∉ rest.map Prod.fst ∧ keysNodup rest := by
  have h1 : (p.1 :: rest.map Prod.fst).Nodup := hnd
  exact List.nodup_cons.mp h1

theorem dictGet_dictPop_self {d : List (Option String × String)}
    {k : Option String} (hnd : keysNodup d) :
    dictGet (dictPop d k) k = none := by
  induction d with
  | nil => rfl
  | cons p rest ih =>
    have h0 := keys_cons_nodup hnd
    simp only [dictPop]
    by_cases hp : p.1 = k
    · rw [if_pos hp]
      exact dictGet_eq_none_of_not_mem (hp ▸ h0.1)
    · rw [if_neg hp]
      simp [dictGet, hp, ih h0.2]

theorem keysNodup_dictPop {d : List (Option String × String)}
    (k : Option String) (hnd : keysNodup d) : keysNodup (dictPop d k) :=
  ((dictPop_sublist d k).map Prod.fst).nodup hnd

theorem mem_keys_dictSet {x k : Option String} {v : String}
    {d : List (Option String × String)}
    (h : x ∈ (dictSet d k v).map Prod.fst) : x ∈ d.map Prod.fst ∨ x = k := by
  rcases List.mem_map.mp h with ⟨q, hq, hqx⟩
  rcases mem_dictSet hq with h' | h'
  · exact Or.inl (hqx ▸ List.mem_map_of_mem Prod.fst h')
  · right
    rw [← hqx, h']

theorem keysNodup_dictSet {d : List (Option String × String)}
    (k : Option String) (v : String) (hnd : keysNodup d) :
    keysNodup (dictSet d k v) := by
  induction d with
  | nil => simp [dictSet, keysNodup]
  | cons p rest ih =>
    have h0 := keys_cons_nodup hnd
    by_cases hp : p.1 = k
    · show ((dictSet (p :: rest) k v).map Prod.fst).Nodup
      simp only [dictSet]
      rw [if_pos hp]
      exact List.nodup_cons.mpr ⟨hp ▸ h0.1, h0.2⟩
    · show ((dictSet (p :: rest) k v).map Prod.fst).Nodup
      simp only [dictSet]
      rw [if_neg hp]
      refine List.nodup_cons.mpr ⟨?_, ih h0.2⟩
      intro hmem
      rcases mem_keys_dictSet hmem with h' | h'
      · exact h0.1 h'
      · exact hp h'

theorem dictGet_of_mem {d : List (Option String × String)}
    {p : Option String × String} (hnd : keysNodup d) (hp : p ∈ d) :
    dictGet d p.1 = some p.2 := by
  induction d with
  | nil => cases hp
  | cons q rest ih =>
    have h0 := keys_cons_nodup hnd
    rcases List.mem_cons.mp hp with h | h
    · subst h
      simp [dictGet]
    · by_cases hq : q.1 = p.1
      · exact absurd (List.mem_map_of_mem Prod.fst h) (hq ▸ h0.1)
      · simp [dictGet, hq, ih h0.2 h]

/-! ## Component-tracker lemmas -/

theorem pcAux_cons (now : String) (states : List (Option String × String))
    (c : ComponentJson) (rest : List ComponentJson) :
    pcAux now states (c :: rest) =
      if c.status.getD "unknown" = "operational" then
        pcAux now (dictPop states c.id) rest
      else if dictGet states c.id = some (c.status.getD "unknown") then
        pcAux now states rest
      else
        ((pcAux now (dictSet states c.id (c.status.getD "unknown")) rest).1,
          mkComponentUpdate now (c.name.getD "Unknown Service")
              (c.status.getD "unknown") ::
            (pcAux now (dictSet states c.id (c.status.getD "unknown")) rest).2) :=
  rfl

/-- `process_components` never touches a dict entry whose key does
not occur in the payload. -/
theorem pcAux_frame (now : String) (comps : List ComponentJson) :
    ∀ (states : List (Option String × String)) (k : Option String),
      (∀ c ∈ comps, c.id ≠ k) →
      dictGet (pcAux now states comps).1 k = dictGet states k := by
  induction comps with
  | nil => intro states k _; rfl
  | cons c rest ih =>
    intro states k h
    have hck : c.id ≠ k := h c (List.mem_cons_self c rest)
    have hrest : ∀ c' ∈ rest, c'.id ≠ k := fun c' hc' =>
      h c' (List.mem_cons_of_mem c hc')
    rw [pcAux_cons]
    by_cases hop : c.status.getD "unknown" = "operational"
    · rw [if_pos hop, ih _ _ hrest]
      exact dictGet_dictPop_ne (Ne.symm hck)
    · rw [if_neg hop]
      by_cases hseen : dictGet states c.id = some (c.status.getD "unknown")
      · rw [if_pos hseen]
        exact ih _ _ hrest
      · rw [if_neg hseen]
        show dictGet
            (pcAux now (dictSet states c.id (c.status.getD "unknown")) rest).1 k =
          dictGet states k
        rw [ih _ _ hrest]
        exact dictGet_dictSet_ne _ (Ne.symm hck)

/-- Key distinctness of the tracked mapping is preserved. -/
theorem pcAux_keysNodup (now : String) (comps : List ComponentJson) :
    ∀ states : List (Option String × String), keysNodup states →
      keysNodup (pcAux now states comps).1 := by
  induction comps with
  | nil => intro states h; exact h
  | cons c rest ih =>
    intro states h
    rw [pcAux_cons]
    by_cases hop : c.status.getD "unknown" = "operational"
    · rw [if_pos hop]
      exact ih _ (keysNodup_dictPop _ h)
    · rw [if_neg hop]
      by_cases hseen : dictGet states c.id = some (c.status.getD "unknown")
      · rw [if_pos hseen]
        exact ih _ h
      · rw [if_neg hseen]
        exact ih _ (keysNodup_dictSet _ _ h)

/-- Every value ever stored in the tracked mapping is non-operational
(line 76 guards the only write, line 84). -/
theorem pcAux_valuesOk (now : String) (comps : List ComponentJson) :
    ∀ states : List (Option String × String),
      (∀ p ∈ states, p.2 ≠ "operational") →
      ∀ p ∈ (pcAux now states comps).1, p.2 ≠ "operational" := by
  induction comps with
  | nil => intro states h; exact h
  | cons c rest ih =>
    intro states h
    rw [pcAux_cons]
    by_cases hop : c.status.getD "unknown" = "operational"
    · rw [if_pos hop]
      exact ih _ (fun p hp => h p ((dictPop_sublist states c.id).mem hp))
    · rw [if_neg hop]
      by_cases hseen : dictGet states c.id = some (c.status.getD "unknown")
      · rw [if_pos hseen]
        exact ih _ h
      · rw [if_neg hseen]
        refine ih _ (fun p hp => ?_)
        rcases mem_dictSet hp with h' | h'
        · exact h p h'
        · rw [h']
          exact hop

theorem lastStatusFor_eq_none {comps : List ComponentJson}
    {k : Option String} (h : lastStatusFor comps k = none) :
    ∀ c ∈ comps, c.id ≠ k := by
  induction comps with
  | nil => intro c hc; cases hc
  | cons c rest ih =>
    intro c' hc'
    simp only [lastStatusFor] at h
    cases hr : lastStatusFor rest k with
    | some s => rw [hr] at h; cases h
    | none =>
      rw [hr] at h
      rcases List.mem_cons.mp hc' with h' | h'
      · subst h'
        intro hck
        rw [if_pos hck] at h
        cases h
      · exact ih hr c' h'

/-- If the last payload entry for key `k` is operational, `k` is
absent from the mapping afterwards. -/
theorem pcAux_last_operational (now : String) (comps : List ComponentJson) :
    ∀ (states : List (Option String × String)) (k : Option String),
      keysNodup states →
      lastStatusFor comps k = some "operational" →
      dictGet (pcAux now states comps).1 k = none := by
  induction comps with
  | nil => intro states k _ h; cases h
  | cons c rest ih =>
    intro states k hnd h
    simp only [lastStatusFor] at h
    cases hr : lastStatusFor rest k with
    | some s =>
      rw [hr] at h
      injection h with h
      subst h
      rw [pcAux_cons]
      by_cases hop : c.status.getD "unknown" = "operational"
      · rw [if_pos hop]
        exact ih _ _ (keysNodup_dictPop _ hnd) hr
      · rw [if_neg hop]
        by_cases hseen : dictGet states c.id = some (c.status.getD "unknown")
        · rw [if_pos hseen]
          exact ih _ _ hnd hr
        · rw [if_neg hseen]
          show dictGet
              (pcAux now (dictSet states c.id (c.status.getD "unknown")) rest).1 k =
            none
          exact ih _ _ (keysNodup_dictSet _ _ hnd) hr
    | none =>
      rw [hr] at h
      by_cases hck : c.id = k
      · rw [if_pos hck] at h
        injection h with h
        rw [pcAux_cons, if_pos h]
        rw [pcAux_frame now rest _ k (lastStatusFor_eq_none hr)]
        rw [hck]
        exact dictGet_dictPop_self hnd
      · rw [if_neg hck] at h
        cases h

theorem process_components_eq (st : MonitorState) (now : String)
    (comps : List ComponentJson) :
    process_components st now comps =
      ({ st with
          seen_component_states := (pcAux now st.seen_component_states comps).1 },
        (pcAux now st.seen_component_states comps).2) :=
  rfl

/-- C4: a component going operational → degraded → operational →
degraded over four successive `process_components` calls yields
exactly one notification per non-operational entry (two in total) and
none on the recovery steps; and a component re-presenting its stored
non-operational status yields no record and no state change. -/
theorem component_transition_two_notifications
    (st st1 st2 st3 st4 : MonitorState) (now : String)
    (cid : Option String) (name : String)
    (us1 us2 us3 us4 : List StatusUpdate)
    (hnd : keysNodup st.seen_component_states)
    (h1 : process_components st now [⟨cid, some name, some "operational"⟩] = (st1, us1))
    (h2 : process_components st1 now [⟨cid, some name, some "degraded"⟩] = (st2, us2))
    (h3 : process_components st2 now [⟨cid, some name, some "operational"⟩] = (st3, us3))
    (h4 : process_components st3 now [⟨cid, some name, some "degraded"⟩] = (st4, us4)) :
    (us1 = [] ∧ us2.length = 1 ∧ us3 = [] ∧ us4.length = 1) ∧
    (∀ (st' : MonitorState) (c : ComponentJson),
      c.status.getD "unknown" ≠ "operational" →
      dictGet st'.seen_component_states c.id = some (c.status.getD "unknown") →
      process_components st' now [c] = (st', [])) := by
  have hb : ∀ (st' : MonitorState) (c : ComponentJson),
      c.status.getD "unknown" ≠ "operational" →
      dictGet st'.seen_component_states c.id = some (c.status.getD "unknown") →
      process_components st' now [c] = (st', []) := by
    intro st' c hcop hcseen
    rw [process_components_eq, pcAux_cons, if_neg hcop, if_pos hcseen]
    rfl
  refine ⟨?_, hb⟩
  have e1 : process_components st now
      [(⟨cid, some name, some "operational"⟩ : ComponentJson)] =
      ({ st with
          seen_component_states := dictPop st.seen_component_states cid }, []) := by
    rw [process_components_eq, pcAux_cons]
    simp [pcAux]
  rw [e1] at h1
  injection h1 with ha hbb
  subst ha
  subst hbb
  have hd1 : dictGet (dictPop st.seen_component_states cid) cid = none :=
    dictGet_dictPop_self hnd
  have e2 : process_components
      ({ st with
          seen_component_states := dictPop st.seen_component_states cid }) now
      [(⟨cid, some name, some "degraded"⟩ : ComponentJson)] =
      ({ st with
          seen_component_states :=
            dictSet (dictPop st.seen_component_states cid) cid "degraded" },
        [mkComponentUpdate now name "degraded"]) := by
    rw [process_components_eq, pcAux_cons]
    simp [pcAux, hd1]
  rw [e2] at h2
  injection h2 with ha hbb
  subst ha
  subst hbb
  have e3 : process_components
      ({ st with
          seen_component_states :=
            dictSet (dictPop st.seen_component_states cid) cid "degraded" }) now
      [(⟨cid, some name, some "operational"⟩ : ComponentJson)] =
      ({ st with
          seen_component_states :=
            dictPop
              (dictSet (dictPop st.seen_component_states cid) cid "degraded")
              cid }, []) := by
    rw [process_components_eq, pcAux_cons]
    simp [pcAux]
  rw [e3] at h3
  injection h3 with ha hbb
  subst ha
  subst hbb
  have hd3 : dictGet
      (dictPop (dictSet (dictPop st.seen_component_states cid) cid "degraded")
        cid) cid = none :=
    dictGet_dictPop_self
      (keysNodup_dictSet _ _ (keysNodup_dictPop _ hnd))
  have e4 : process_components
      ({ st with
          seen_component_states :=
            dictPop
              (dictSet (dictPop st.seen_component_states cid) cid "degraded")
              cid }) now
      [(⟨cid, some name, some "degraded"⟩ : ComponentJson)] =
      ({ st with
          seen_component_states :=
            dictSet
              (dictPop
                (dictSet (dictPop st.seen_component_states cid) cid "degraded")
                cid) cid "degraded" },
        [mkComponentUpdate now name "degraded"]) := by
    rw [process_components_eq, pcAux_cons]
    simp [pcAux, hd3]
  rw [e4] at h4
  injection h4 with ha hbb
  subst ha
  subst hbb
  exact ⟨rfl, rfl, rfl, rfl⟩

/-- C8: `process_components` preserves the mapping invariant: keys stay
distinct, every stored status is non-operational, and a key whose most
recently processed status is operational is absent afterwards. -/
theorem component_state_invariant (st : MonitorState) (now : String)
    (comps : List ComponentJson)
    (hnd : keysNodup st.seen_component_states)
    (hinv : ∀ k v, dictGet st.seen_component_states k = some v →
      v ≠ "operational") :
    keysNodup (process_components st now comps).1.seen_component_states ∧
    (∀ k v,
      dictGet (process_components st now comps).1.seen_component_states k =
        some v → v ≠ "operational") ∧
    (∀ k, lastStatusFor comps k = some "operational" →
      dictGet (process_components st now comps).1.seen_component_states k =
        none) := by
  have hval : ∀ p ∈ st.seen_component_states, p.2 ≠ "operational" :=
    fun p hp => hinv p.1 p.2 (dictGet_of_mem hnd hp)
  refine ⟨pcAux_keysNodup now comps _ hnd, ?_, ?_⟩
  · intro k v hget
    rcases dictGet_mem_value hget with ⟨p, hp, hpv⟩
    exact hpv ▸ pcAux_valuesOk now comps _ hval p hp
  · intro k hlast
    exact pcAux_last_operational now comps _ k hnd hlast

/-- C10: `process_components` leaves every dict entry whose key is
absent from the payload untouched; in particular such a component,
reappearing later with its stored status, produces no record and no
state change. -/
theorem component_frame_absent (st : MonitorState) (now : String)
    (comps : List ComponentJson) (k : Option String)
    (habsent : ∀ c ∈ comps, c.id ≠ k) :
    dictGet (process_components st now comps).1.seen_component_states k =
      dictGet st.seen_component_states k ∧
    (∀ (name s : String), s ≠ "operational" →
      dictGet st.seen_component_states k = some s →
      process_components (process_components st now comps).1 now
          [⟨k, some name, some s⟩] =
        ((process_components st now comps).1, [])) := by
  refine ⟨pcAux_frame now comps _ k habsent, ?_⟩
  intro name s hs hget
  have hcop : (⟨k, some name, some s⟩ : ComponentJson).status.getD "unknown" ≠
      "operational" := by
    simpa using hs
  have hseen :
      dictGet (process_components st now comps).1.seen_component_states
        (⟨k, some name, some s⟩ : ComponentJson).id =
      some ((⟨k, some name, some s⟩ : ComponentJson).status.getD "unknown") := by
    show dictGet (pcAux now st.seen_component_states comps).1 k =
      some ((some s).getD "unknown")
    rw [pcAux_frame now comps _ k habsent, hget]
    rfl
  rw [process_components_eq, pcAux_cons, if_neg hcop, if_pos hseen]
  rfl

/-! ## Incident-tracker lemmas -/

theorem piAux_cons (now : String) (seen : List (Option String))
    (inc : IncidentJson) (rest : List IncidentJson) :
    piAux now seen (inc :: rest) =
      if inc.id ∈ seen then piAux now seen rest
      else ((piAux now (inc.id :: seen) rest).1,
        mkIncidentUpdate now inc :: (piAux now (inc.id :: seen) rest).2) :=
  rfl

theorem mkIncidentUpdate_id (now : String) (inc : IncidentJson) :
    (mkIncidentUpdate now inc).incident_id = inc.id :=
  rfl

/-- The seen-set only grows within one `process_incidents` call. -/
theorem piAux_subset (now : String) (incs : List IncidentJson) :
    ∀ seen, ∀ x ∈ seen, x ∈ (piAux now seen incs).1 := by
  induction incs with
  | nil => intro seen x hx; exact hx
  | cons inc rest ih =>
    intro seen x hx
    rw [piAux_cons]
    by_cases h : inc.id ∈ seen
    · rw [if_pos h]
      exact ih seen x hx
    · rw [if_neg h]
      exact ih _ x (List.mem_cons_of_mem _ hx)

/-- Every emitted record's incident id ends up in the seen-set. -/
theorem piAux_update_id_mem (now : String) (incs : List IncidentJson) :
    ∀ seen, ∀ u ∈ (piAux now seen incs).2,
      u.incident_id ∈ (piAux now seen incs).1 := by
  induction incs with
  | nil => intro seen u hu; cases hu
  | cons inc rest ih =>
    intro seen u hu
    rw [piAux_cons] at hu ⊢
    by_cases h : inc.id ∈ seen
    · rw [if_pos h] at hu ⊢
      exact ih seen u hu
    · rw [if_neg h] at hu ⊢
      rcases List.mem_cons.mp hu with h' | h'
      · subst h'
        exact piAux_subset now rest _ _ (List.mem_cons_self _ _)
      · exact ih _ u h'

/-- Within one call, an incident id already seen yields no record, and
an unseen one yields at most one. -/
theorem piAux_countP (now : String) (incs : List IncidentJson)
    (x : Option String) :
    ∀ seen,
      (piAux now seen incs).2.countP (fun u => decide (u.incident_id = x)) ≤
        if x ∈ seen then 0 else 1 := by
  induction incs with
  | nil =>
    intro seen
    show List.countP _ [] ≤ _
    simp
  | cons inc rest ih =>
    intro seen
    rw [piAux_cons]
    by_cases h : inc.id ∈ seen
    · rw [if_pos h]
      exact ih seen
    · rw [if_neg h]
      have hrest := ih (inc.id :: seen)
      show List.countP (fun u => decide (u.incident_id = x))
          (mkIncidentUpdate now inc :: (piAux now (inc.id :: seen) rest).2) ≤
        if x ∈ seen then 0 else 1
      rw [List.countP_cons]
      by_cases hxi : inc.id = x
      · subst hxi
        have hone : (if decide ((mkIncidentUpdate now inc).incident_id = inc.id) =
            true then 1 else 0) = 1 := by
          simp [mkIncidentUpdate_id]
        rw [hone, if_neg h]
        rw [if_pos (List.mem_cons_self _ _)] at hrest
        omega
      · have hzero : (if decide ((mkIncidentUpdate now inc).incident_id = x) =
            true then 1 else 0) = 0 := by
          simp [mkIncidentUpdate_id, hxi]
        rw [hzero]
        by_cases hxseen : x ∈ seen
        · rw [if_pos hxseen]
          rw [if_pos (List.mem_cons_of_mem _ hxseen)] at hrest
          omega
        · rw [if_neg hxseen]
          have hx2 : x ∉ inc.id :: seen := by
            intro hc
            rcases List.mem_cons.mp hc with h' | h'
            · exact hxi h'.symm
            · exact hxseen h'
          rw [if_neg hx2] at hrest
          omega

/-- Every emitted record was built from some payload incident. -/
theorem piAux_provenance (now : String) (incs : List IncidentJson) :
    ∀ seen, ∀ u ∈ (piAux now seen incs).2,
      ∃ inc, inc ∈ incs ∧ u = mkIncidentUpdate now inc := by
  induction incs with
  | nil => intro seen u hu; cases hu
  | cons inc rest ih =>
    intro seen u hu
    rw [piAux_cons] at hu
    by_cases h : inc.id ∈ seen
    · rw [if_pos h] at hu
      rcases ih seen u hu with ⟨i2, hi2, he⟩
      exact ⟨i2, List.mem_cons_of_mem _ hi2, he⟩
    · rw [if_neg h] at hu
      rcases List.mem_cons.mp hu with h' | h'
      · exact ⟨inc, List.mem_cons_self _ _, h'⟩
      · rcases ih _ u h' with ⟨i2, hi2, he⟩
        exact ⟨i2, List.mem_cons_of_mem _ hi2, he⟩

theorem process_incidents_eq (st : MonitorState) (now : String)
    (incs : List IncidentJson) :
    process_incidents st now incs =
      ({ st with seen_incidents := (piAux now st.seen_incidents incs).1 },
        (piAux now st.seen_incidents incs).2) :=
  rfl

theorem runIncidentBatches_cons (st : MonitorState) (now : String)
    (b : List IncidentJson) (bs : List (List IncidentJson)) :
    runIncidentBatches st now (b :: bs) =
      ((runIncidentBatches (process_incidents st now b).1 now bs).1,
        (process_incidents st now b).2 ++
          (runIncidentBatches (process_incidents st now b).1 now bs).2) :=
  rfl

theorem runBatchesAux_cons (now : String) (seen : List (Option String))
    (b : List IncidentJson) (bs : List (List IncidentJson)) :
    runBatchesAux now seen (b :: bs) =
      ((runBatchesAux now (piAux now seen b).1 bs).1,
        (piAux now seen b).2 ++ (runBatchesAux now (piAux now seen b).1 bs).2) :=
  rfl

theorem runIncidentBatches_eq (now : String) (bs : List (List IncidentJson)) :
    ∀ st : MonitorState,
      runIncidentBatches st now bs =
        ({ st with seen_incidents := (runBatchesAux now st.seen_incidents bs).1 },
          (runBatchesAux now st.seen_incidents bs).2) := by
  induction bs with
  | nil =>
    intro st
    rfl
  | cons b rest ih =>
    intro st
    rw [runIncidentBatches_cons, ih]
    rfl

theorem runBatchesAux_subset (now : String) (bs : List (List IncidentJson)) :
    ∀ seen, ∀ x ∈ seen, x ∈ (runBatchesAux now seen bs).1 := by
  induction bs with
  | nil => intro seen x hx; exact hx
  | cons b rest ih =>
    intro seen x hx
    rw [runBatchesAux_cons]
    exact ih _ x (piAux_subset now b seen x hx)

theorem runBatchesAux_countP (now : String) (bs : List (List IncidentJson))
    (x : Option String) :
    ∀ seen,
      (runBatchesAux now seen bs).2.countP
          (fun u => decide (u.incident_id = x)) ≤
        if x ∈ seen then 0 else 1 := by
  induction bs with
  | nil =>
    intro seen
    show List.countP _ [] ≤ _
    simp
  | cons b rest ih =>
    intro seen
    rw [runBatchesAux_cons]
    show List.countP (fun u => decide (u.incident_id = x))
        ((piAux now seen b).2 ++ (runBatchesAux now (piAux now seen b).1 rest).2) ≤
      if x ∈ seen then 0 else 1
    rw [List.countP_append]
    have h1 := piAux_countP now b x seen
    have h2 := ih (piAux now seen b).1
    by_cases hx : x ∈ seen
    · rw [if_pos hx]
      rw [if_pos hx] at h1
      rw [if_pos (piAux_subset now b seen x hx)] at h2
      omega
    · rw [if_neg hx]
      rw [if_neg hx] at h1
      by_cases hx2 : x ∈ (piAux now seen b).1
      · rw [if_pos hx2] at h2
        omega
      · rw [if_neg hx2] at h2
        have hb0 : (piAux now seen b).2.countP
            (fun u => decide (u.incident_id = x)) = 0 := by
          by_contra hc
          have hpos : 0 < (piAux now seen b).2.countP
              (fun u => decide (u.incident_id = x)) := Nat.pos_of_ne_zero hc
          rcases List.countP_pos_iff.mp hpos with ⟨u, hu, hup⟩
          have hux : u.incident_id = x := of_decide_eq_true hup
          exact hx2 (hux ▸ piAux_update_id_mem now b seen u hu)
        omega

theorem runBatchesAux_provenance (now : String)
    (bs : List (List IncidentJson)) :
    ∀ seen, ∀ u ∈ (runBatchesAux now seen bs).2,
      ∃ b, b ∈ bs ∧ ∃ inc, inc ∈ b ∧ u = mkIncidentUpdate now inc := by
  induction bs with
  | nil => intro seen u hu; cases hu
  | cons b rest ih =>
    intro seen u hu
    rw [runBatchesAux_cons] at hu
    rcases List.mem_append.mp hu with h' | h'
    · rcases piAux_provenance now b seen u h' with ⟨inc, hinc, he⟩
      exact ⟨b, List.mem_cons_self _ _, inc, hinc, he⟩
    · rcases ih _ u h' with ⟨b2, hb2, inc, hinc, he⟩
      exact ⟨b2, List.mem_cons_of_mem _ hb2, inc, hinc, he⟩

/-- C3: across any sequence of incident payloads, the seen-set only
grows, each incident identifier yields at most one notification ever,
and every emitted record carries the identifier of the payload
incident it was built from. -/
theorem incident_fire_once (st : MonitorState) (now : String)
    (batches : List (List IncidentJson)) :
    (∀ x ∈ st.seen_incidents,
      x ∈ (runIncidentBatches st now batches).1.seen_incidents) ∧
    (∀ x : Option String,
      (runIncidentBatches st now batches).2.countP
          (fun u => decide (u.incident_id = x)) ≤ 1) ∧
    (∀ u ∈ (runIncidentBatches st now batches).2,
      ∃ b, b ∈ batches ∧ ∃ inc, inc ∈ b ∧
        u = mkIncidentUpdate now inc ∧ u.incident_id = inc.id) := by
  rw [runIncidentBatches_eq]
  refine ⟨?_, ?_, ?_⟩
  · intro x hx
    exact runBatchesAux_subset now batches st.seen_incidents x hx
  · intro x
    refine le_trans (runBatchesAux_countP now batches x st.seen_incidents) ?_
    by_cases hx : x ∈ st.seen_incidents
    · simp [hx]
    · simp [hx]
  · intro u hu
    rcases runBatchesAux_provenance now batches st.seen_incidents u hu with
      ⟨b, hb, inc, hinc, he⟩
    exact ⟨b, hb, inc, hinc, he, he ▸ mkIncidentUpdate_id now inc⟩

/-! ## Fingerprint lemmas -/

theorem canonFields_eq_map (fs : List (String × Json)) :
    canonFields fs = fs.map (fun p => (p.1, canonJson p.2)) := by
  induction fs with
  | nil => simp [canonFields]
  | cons p rest ih =>
    cases p with
    | mk k v => simp [canonFields, ih]

theorem sorted_lt_of_sorted_le {l : List (String × Json)}
    (hs : List.Sorted (fun a b : String × Json => a.1 ≤ b.1) l)
    (hnd : (l.map Prod.fst).Nodup) :
    List.Sorted (fun a b : String × Json => a.1 < b.1) l := by
  induction l with
  | nil => exact List.sorted_nil
  | cons p rest ih =>
    rw [List.sorted_cons] at hs ⊢
    have h0 : p.1 ∉ rest.map Prod.fst ∧ (rest.map Prod.fst).Nodup :=
      List.nodup_cons.mp hnd
    refine ⟨?_, ih hs.2 h0.2⟩
    intro b hb
    exact lt_of_le_of_ne (hs.1 b hb)
      (fun he => h0.1 (by rw [he]; exact List.mem_map_of_mem Prod.fst hb))

/-- With distinct keys, sorting by key is insensitive to the input
order (Python dict keys are always distinct). -/
theorem sortPairs_eq_of_perm {l1 l2 : List (String × Json)}
    (hp : l1.Perm l2) (hnd : (l1.map Prod.fst).Nodup) :
    sortPairs l1 = sortPairs l2 := by
  haveI ht : IsTotal (String × Json) (fun a b => a.1 ≤ b.1) :=
    ⟨fun a b => le_total a.1 b.1⟩
  haveI htr : IsTrans (String × Json) (fun a b => a.1 ≤ b.1) :=
    ⟨fun a b c hab hbc => le_trans hab hbc⟩
  haveI has : IsAntisymm (String × Json) (fun a b => a.1 < b.1) :=
    ⟨fun a b hab hba => absurd hab (lt_asymm hba)⟩
  have hperm : (sortPairs l1).Perm (sortPairs l2) :=
    (List.perm_insertionSort _ l1).trans
      (hp.trans (List.perm_insertionSort _ l2).symm)
  have hs1 : List.Sorted (fun a b : String × Json => a.1 ≤ b.1) (sortPairs l1) :=
    List.sorted_insertionSort _ l1
  have hs2 : List.Sorted (fun a b : String × Json => a.1 ≤ b.1) (sortPairs l2) :=
    List.sorted_insertionSort _ l2
  have hnd1 : ((sortPairs l1).map Prod.fst).Nodup :=
    (((List.perm_insertionSort _ l1).map Prod.fst).nodup_iff).mpr hnd
  have hnd2' : (l2.map Prod.fst).Nodup := ((hp.map Prod.fst).nodup_iff).mp hnd
  have hnd2 : ((sortPairs l2).map Prod.fst).Nodup :=
    (((List.perm_insertionSort _ l2).map Prod.fst).nodup_iff).mpr hnd2'
  exact List.eq_of_perm_of_sorted hperm
    (sorted_lt_of_sorted_le hs1 hnd1) (sorted_lt_of_sorted_le hs2 hnd2)

/-- C5: the fingerprint is order-independent: two summary documents
with the same key/value content in different key order get equal
fingerprints and hence the same should-inspect decision. -/
theorem hash_content_order_independent (fs1 fs2 : List (String × Json))
    (last : Option String) (hperm : fs1.Perm fs2)
    (hnd : (fs1.map Prod.fst).Nodup) :
    hash_content fs1 = hash_content fs2 ∧
    should_inspect last fs1 = should_inspect last fs2 := by
  have hcanon : canonJson (Json.obj fs1) = canonJson (Json.obj fs2) := by
    simp only [canonJson]
    congr 1
    rw [canonFields_eq_map, canonFields_eq_map]
    apply sortPairs_eq_of_perm (hperm.map _)
    rw [List.map_map]
    have hcomp : (Prod.fst ∘ fun p : String × Json => (p.1, canonJson p.2)) =
        Prod.fst := by
      funext p
      rfl
    rw [hcomp]
    exact hnd
  have hh : hash_content fs1 = hash_content fs2 := by
    unfold hash_content
    rw [hcanon]
  refine ⟨hh, ?_⟩
  unfold should_inspect
  rw [hh]

/-! ## Check-cycle lemmas -/

theorem check_for_updates_cons (st : MonitorState) (now : String)
    (p : String × Json) (ps : List (String × Json))
    (incidents : Option (List IncidentJson))
    (components : Option (List ComponentJson)) :
    check_for_updates st now (some (p :: ps)) incidents components =
      if some (hash_content (p :: ps)) = st.last_content_hash then (st, [])
      else
        ((componentsStep
            (incidentsStep
              { st with last_content_hash := some (hash_content (p :: ps)) }
              now incidents).1 now components).1,
          (incidentsStep
              { st with last_content_hash := some (hash_content (p :: ps)) }
              now incidents).2 ++
            (componentsStep
              (incidentsStep
                { st with last_content_hash := some (hash_content (p :: ps)) }
                now incidents).1 now components).2) :=
  rfl

theorem incidentsStep_hash (st : MonitorState) (now : String) :
    ∀ oi, (incidentsStep st now oi).1.last_content_hash =
      st.last_content_hash
  | none => rfl
  | some [] => rfl
  | some (_ :: _) => rfl

theorem componentsStep_hash (st : MonitorState) (now : String) :
    ∀ oc, (componentsStep st now oc).1.last_content_hash =
      st.last_content_hash
  | none => rfl
  | some [] => rfl
  | some (_ :: _) => rfl

theorem componentsStep_active (st : MonitorState) (now : String) :
    ∀ oc, (componentsStep st now oc).1.active_incidents =
      st.active_incidents
  | none => rfl
  | some [] => rfl
  | some (_ :: _) => rfl

theorem incidentsStep_active_cons (st : MonitorState) (now : String)
    (i : IncidentJson) (is : List IncidentJson) :
    (incidentsStep st now (some (i :: is))).1.active_incidents =
      decide (0 < (activeFilter (i :: is)).length) :=
  rfl

/-- C9: a summary fetch that succeeds but returns an empty document is
treated like a failure: no records, no sub-processing, no state change
(the fingerprint in particular is not updated). -/
theorem empty_summary_no_effect (st : MonitorState) (now : String)
    (incidents : Option (List IncidentJson))
    (components : Option (List ComponentJson)) :
    check_for_updates st now (some []) incidents components = (st, []) :=
  rfl

/-- C6: when the summary's fingerprint equals the stored one, the
cycle returns no records and the state — seen incidents, component
states, flag, fingerprint — is left untouched, independently of the
sub-fetch results (no sub-fetch is consulted). -/
theorem unchanged_summary_no_effect (st : MonitorState) (now : String)
    (p : String × Json) (ps : List (String × Json))
    (incidents : Option (List IncidentJson))
    (components : Option (List ComponentJson))
    (h : st.last_content_hash = some (hash_content (p :: ps))) :
    check_for_updates st now (some (p :: ps)) incidents components =
      (st, []) := by
  rw [check_for_updates_cons, if_pos h.symm]

/-- C7: a failed summary fetch produces no records and leaves the
state (fingerprint included) unchanged, so the next cycle still
compares against the pre-failure fingerprint and, on a differing
summary, records the new fingerprint. -/
theorem summary_failure_no_effect (st : MonitorState) (now : String)
    (incidents : Option (List IncidentJson))
    (components : Option (List ComponentJson)) :
    check_for_updates st now none incidents components = (st, []) ∧
    (∀ (p : String × Json) (ps : List (String × Json))
        (incidents2 : Option (List IncidentJson))
        (components2 : Option (List ComponentJson)),
      some (hash_content (p :: ps)) ≠ st.last_content_hash →
      (check_for_updates (check_for_updates st now none incidents components).1
          now (some (p :: ps)) incidents2 components2).1.last_content_hash =
        some (hash_content (p :: ps))) := by
  refine ⟨rfl, ?_⟩
  intro p ps i2 c2 hne
  show (check_for_updates st now (some (p :: ps)) i2 c2).1.last_content_hash = _
  rw [check_for_updates_cons, if_neg hne]
  show (componentsStep
      (incidentsStep
        { st with last_content_hash := some (hash_content (p :: ps)) } now
        i2).1 now c2).1.last_content_hash = some (hash_content (p :: ps))
  rw [componentsStep_hash, incidentsStep_hash]

theorem incidentsStep_active_empty (st : MonitorState) (now : String) :
    (incidentsStep st now (some [])).1.active_incidents =
      st.active_incidents :=
  rfl

/-- C1 counterexample: from the fresh state, a first cycle whose
incidents fetch returns one unresolved incident sets the flag true;
a second cycle whose summary changed and whose incidents fetch
SUCCEEDS with the empty list leaves the flag true, although the claim
requires a successful fetch of an all-terminal (here: empty) list to
set it to false — `if incidents:` treats the empty list like a failed
fetch. -/
theorem active_flag_counterexample :
    (check_for_updates
        (check_for_updates initialState "t1" (some [("a", Json.num 1)])
          (some [⟨some "i1", some "X", some "investigating", some "minor",
            [], []⟩]) none).1
        "t2" (some [("a", Json.num 2)]) (some []) none).1.active_incidents =
      true := by
  have hne0 : some (hash_content [("a", Json.num 1)]) ≠
      (initialState : MonitorState).last_content_hash :=
    fun hc => Option.noConfusion hc
  have h1a : (check_for_updates initialState "t1" (some [("a", Json.num 1)])
      (some [⟨some "i1", some "X", some "investigating", some "minor", [], []⟩])
      none).1.active_incidents = true := by
    rw [check_for_updates_cons, if_neg hne0]
    show (componentsStep
        (incidentsStep
          { initialState with
              last_content_hash := some (hash_content [("a", Json.num 1)]) }
          "t1" (some [⟨some "i1", some "X", some "investigating", some "minor",
            [], []⟩])).1 "t1" none).1.active_incidents = true
    rw [componentsStep_active, incidentsStep_active_cons]
    decide
  have h1h : (check_for_updates initialState "t1" (some [("a", Json.num 1)])
      (some [⟨some "i1", some "X", some "investigating", some "minor", [], []⟩])
      none).1.last_content_hash = some (hash_content [("a", Json.num 1)]) := by
    rw [check_for_updates_cons, if_neg hne0]
    show (componentsStep
        (incidentsStep
          { initialState with
              last_content_hash := some (hash_content [("a", Json.num 1)]) }
          "t1" (some [⟨some "i1", some "X", some "investigating", some "minor",
            [], []⟩])).1 "t1" none).1.last_content_hash =
      some (hash_content [("a", Json.num 1)])
    rw [componentsStep_hash, incidentsStep_hash]
  have hne : hash_content [("a", Json.num 2)] ≠
      hash_content [("a", Json.num 1)] := by
    simp only [hash_content, canonJson, canonFields, canonList, sortPairs,
      List.insertionSort, List.orderedInsert, serializeJson, serializeFields,
      serializeList]
    decide
  rw [check_for_updates_cons, h1h,
    if_neg (fun hc => hne (Option.some.inj hc))]
  show (componentsStep
      (incidentsStep
        { (check_for_updates initialState "t1" (some [("a", Json.num 1)])
            (some [⟨some "i1", some "X", some "investigating", some "minor",
              [], []⟩]) none).1 with
            last_content_hash := some (hash_content [("a", Json.num 2)]) }
        "t2" (some [])).1 "t2" none).1.active_incidents = true
  rw [componentsStep_active, incidentsStep_active_empty]
  exact h1a

/-- C1 amended: when the summary advanced and the incidents fetch
succeeds with a non-empty list, the flag is recomputed: true iff some
entry's status is neither resolved nor postmortem; the next interval
is the incident cadence exactly when the flag is true; but a
successful fetch returning the EMPTY list leaves the flag at its
previous value instead of recomputing it. -/
theorem active_flag_amended (st : MonitorState) (now : String)
    (p : String × Json) (ps : List (String × Json))
    (i : IncidentJson) (is : List IncidentJson)
    (components : Option (List ComponentJson))
    (hh : some (hash_content (p :: ps)) ≠ st.last_content_hash) :
    ((check_for_updates st now (some (p :: ps)) (some (i :: is))
        components).1.active_incidents = true ↔
      ∃ inc ∈ i :: is, inc.status ≠ some "resolved" ∧
        inc.status ≠ some "postmortem") ∧
    (next_interval (check_for_updates st now (some (p :: ps)) (some (i :: is))
        components).1 = INCIDENT_INTERVAL ↔
      (check_for_updates st now (some (p :: ps)) (some (i :: is))
          components).1.active_incidents = true) ∧
    (∀ (st2 : MonitorState) (now2 : String) (q : String × Json)
        (qs : List (String × Json))
        (components2 : Option (List ComponentJson)),
      (check_for_updates st2 now2 (some (q :: qs)) (some [])
          components2).1.active_incidents = st2.active_incidents) := by
  have hflag : (check_for_updates st now (some (p :: ps)) (some (i :: is))
      components).1.active_incidents =
      decide (0 < (activeFilter (i :: is)).length) := by
    rw [check_for_updates_cons, if_neg hh]
    show (componentsStep
        (incidentsStep
          { st with last_content_hash := some (hash_content (p :: ps)) } now
          (some (i :: is))).1 now components).1.active_incidents = _
    rw [componentsStep_active, incidentsStep_active_cons]
  refine ⟨?_, ?_, ?_⟩
  · rw [hflag]
    simp only [decide_eq_true_eq, activeFilter]
    constructor
    · intro hpos
      rcases List.length_pos_iff_exists_mem.mp hpos with ⟨inc, hinc⟩
      rcases List.mem_filter.mp hinc with ⟨hmem, hpred⟩
      refine ⟨inc, hmem, ?_, ?_⟩
      · intro hres
        rw [hres] at hpred
        simp at hpred
      · intro hpost
        rw [hpost] at hpred
        simp at hpred
    · rintro ⟨inc, hmem, hres, hpost⟩
      apply List.length_pos_iff_exists_mem.mpr
      refine ⟨inc, List.mem_filter.mpr ⟨hmem, ?_⟩⟩
      simp [hres, hpost]
  · by_cases hA : (check_for_updates st now (some (p :: ps)) (some (i :: is))
        components).1.active_incidents = true
    · simp [next_interval, hA]
    · simp [next_interval, hA, INCIDENT_INTERVAL, NORMAL_INTERVAL]
  · intro st2 now2 q qs c2
    rw [check_for_updates_cons]
    by_cases hc : some (hash_content (q :: qs)) = st2.last_content_hash
    · rw [if_pos hc]
    · rw [if_neg hc]
      show (componentsStep
          (incidentsStep
            { st2 with last_content_hash := some (hash_content (q :: qs)) }
            now2 (some [])).1 now2 c2).1.active_incidents =
        st2.active_incidents
      rw [componentsStep_active, incidentsStep_active_empty]

theorem pyLen_pyTake_le (n : Nat) (s : String) : pyLen (pyTake n s) ≤ n := by
  simp [pyLen, pyTake]

theorem mkIncidentUpdate_message_le (now : String) (inc : IncidentJson) :
    pyLen (mkIncidentUpdate now inc).message ≤ 200 :=
  pyLen_pyTake_le 200 _

set_option maxRecDepth 100000 in
/-- C2 counterexample: component-origin messages are NOT truncated
(line 91 has no `[:200]`): a component whose status string has 174
characters yields a record whose message has 201 characters. -/
theorem message_truncation_counterexample :
    ((process_components initialState "t"
        [⟨some "c1", some "API",
          some (String.mk (List.replicate 174 's'))⟩]).2.map
      (fun u => pyLen u.message)) = [201] ∧ ¬(201 ≤ 200) := by
  constructor
  · decide
  · decide

set_option maxRecDepth 100000 in
/-- C2 amended: every incident-origin record's message is at most 200
characters, and a 300-character first-update body is emitted as
exactly its first 200 characters; component-origin messages are the
untruncated "Service status changed to: " + status text, which can
exceed 200 characters. -/
theorem incident_message_truncation (st : MonitorState) (now : String)
    (incs : List IncidentJson) :
    (∀ u ∈ (process_incidents st now incs).2, pyLen u.message ≤ 200) ∧
    ((process_incidents initialState "t0"
        [⟨some "i1", some "X", some "investigating", some "major",
          [⟨some (String.mk (List.replicate 300 'b'))⟩], []⟩]).2.map
      (fun u => u.message)) = [String.mk (List.replicate 200 'b')] ∧
    (∀ (st2 : MonitorState) (c : ComponentJson),
      ∀ u ∈ (process_components st2 now [c]).2,
        u.message = "Service status changed to: " ++
          pyReplaceChar (c.status.getD "unknown") '_' ' ') := by
  refine ⟨?_, ?_, ?_⟩
  · intro u hu
    rcases piAux_provenance now incs st.seen_incidents u hu with ⟨inc, _, he⟩
    rw [he]
    exact mkIncidentUpdate_message_le now inc
  · decide
  · intro st2 c u hu
    rw [process_components_eq, pcAux_cons] at hu
    by_cases hop : c.status.getD "unknown" = "operational"
    · rw [if_pos hop] at hu
      cases hu
    · rw [if_neg hop] at hu
      by_cases hseen : dictGet st2.seen_component_states c.id =
          some (c.status.getD "unknown")
      · rw [if_pos hseen] at hu
        cases hu
      · rw [if_neg hseen] at hu
        rcases List.mem_cons.mp hu with h' | h'
        · rw [h']
          rfl
        · cases h'

/-! ## Witnesses -/

theorem active_flag_amended_witness :
    (some (hash_content [("a", Json.num 1)]) ≠
      (initialState : MonitorState).last_content_hash) ∧
    ((check_for_updates initialState "t" (some [("a", Json.num 1)])
        (some [⟨some "i1", none, some "investigating", none, [], []⟩])
        none).1.active_incidents = true ↔
      ∃ inc ∈ [(⟨some "i1", none, some "investigating", none, [], []⟩ :
          IncidentJson)],
        inc.status ≠ some "resolved" ∧ inc.status ≠ some "postmortem") :=
  ⟨fun hc => Option.noConfusion hc,
    (active_flag_amended initialState "t" ("a", Json.num 1) []
        ⟨some "i1", none, some "investigating", none, [], []⟩ [] none
        (fun hc => Option.noConfusion hc)).1⟩

theorem incident_message_truncation_witness :
    (mkIncidentUpdate "t" ⟨some "i1", none, none, none, [], []⟩ ∈
      (process_incidents initialState "t"
        [⟨some "i1", none, none, none, [], []⟩]).2) ∧
    pyLen (mkIncidentUpdate "t"
      (⟨some "i1", none, none, none, [], []⟩ : IncidentJson)).message ≤ 200 :=
  ⟨by decide,
    (incident_message_truncation initialState "t"
        [⟨some "i1", none, none, none, [], []⟩]).1
      (mkIncidentUpdate "t" ⟨some "i1", none, none, none, [], []⟩)
      (by decide)⟩

theorem incident_fire_once_witness :
    some "x" ∈ ({ initialState with seen_incidents := [some "x"] } :
      MonitorState).seen_incidents ∧
    some "x" ∈ (runIncidentBatches
        { initialState with seen_incidents := [some "x"] } "t"
        [[⟨some "i1", none, none, none, [], []⟩]]).1.seen_incidents :=
  ⟨by decide,
    (incident_fire_once { initialState with seen_incidents := [some "x"] } "t"
        [[⟨some "i1", none, none, none, [], []⟩]]).1 (some "x") (by decide)⟩

theorem component_transition_witness :
    keysNodup (initialState : MonitorState).seen_component_states ∧
    ((process_components (process_components initialState "t"
        [⟨some "c1", some "API", some "operational"⟩]).1 "t"
      [⟨some "c1", some "API", some "degraded"⟩]).2.length = 1) :=
  ⟨by decide,
    ((component_transition_two_notifications initialState _ _ _ _ "t"
        (some "c1") "API" _ _ _ _ (by decide) rfl rfl rfl rfl).1).2.1⟩

theorem hash_content_order_independent_witness :
    (([("b", Json.num 1), ("a", Json.num 2)] :
      List (String × Json)).Perm [("a", Json.num 2), ("b", Json.num 1)]) ∧
    hash_content [("b", Json.num 1), ("a", Json.num 2)] =
      hash_content [("a", Json.num 2), ("b", Json.num 1)] :=
  ⟨List.Perm.swap _ _ _,
    (hash_content_order_independent _ _ none (List.Perm.swap _ _ _)
        (by decide)).1⟩

theorem unchanged_summary_witness :
    ({ initialState with
        last_content_hash := some (hash_content [("a", Json.num 1)]) } :
      MonitorState).last_content_hash =
      some (hash_content [("a", Json.num 1)]) ∧
    check_for_updates
        { initialState with
            last_content_hash := some (hash_content [("a", Json.num 1)]) } "t"
        (some [("a", Json.num 1)]) none none =
      ({ initialState with
          last_content_hash := some (hash_content [("a", Json.num 1)]) },
        []) :=
  ⟨rfl, unchanged_summary_no_effect _ "t" ("a", Json.num 1) [] none none rfl⟩

theorem summary_failure_witness :
    (some (hash_content [("a", Json.num 1)]) ≠
      (initialState : MonitorState).last_content_hash) ∧
    (check_for_updates (check_for_updates initialState "t" none none none).1
        "t" (some [("a", Json.num 1)]) none none).1.last_content_hash =
      some (hash_content [("a", Json.num 1)]) :=
  ⟨fun hc => Option.noConfusion hc,
    (summary_failure_no_effect initialState "t" none none).2
      ("a", Json.num 1) [] none none (fun hc => Option.noConfusion hc)⟩

theorem component_state_invariant_witness :
    keysNodup (initialState : MonitorState).seen_component_states ∧
    dictGet (process_components initialState "t"
        [⟨some "c1", some "API", some "operational"⟩]).1.seen_component_states
      (some "c1") = none :=
  ⟨by decide,
    (component_state_invariant initialState "t"
        [⟨some "c1", some "API", some "operational"⟩] (by decide)
        (fun k v h => Option.noConfusion h)).2.2 (some "c1") (by decide)⟩

theorem component_frame_absent_witness :
    (("degraded" : String) ≠ "operational") ∧
    process_components (process_components
        { initialState with
            seen_component_states := [(some "c1", "degraded")] } "t" []).1 "t"
      [⟨some "c1", some "API", some "degraded"⟩] =
      ((process_components
        { initialState with
            seen_component_states := [(some "c1", "degraded")] } "t" []).1,
        []) :=
  ⟨by decide,
    (component_frame_absent
        { initialState with
            seen_component_states := [(some "c1", "degraded")] } "t" []
        (some "c1") (fun c hc => absurd hc (List.not_mem_nil c))).2
      "API" "degraded" (by decide) rfl⟩
